import Mathlib

/-!
# Verification of the Student Grading App core (`src/sga.py`)

Shallow embedding of the in-memory Store and its operations.

* The Python module keeps `student_data : dict[str, dict[str, float]]`.
  Python dicts preserve insertion order, assignment to an existing key
  updates the value in place, and `del` removes the entry; we model a
  dict as an association list `List (String × α)` together with the
  operations `lookupKey` (membership / `[]`), `setKey` (`d[k] = v`:
  replace in place if present, else append) and `delKey` (`del d[k]`).
* Python floats are modelled by `EFloat`: a finite rational, NaN, or a
  signed infinity; `efle` is IEEE-754 `<=` on this model (any comparison
  with NaN is false).  Scores that pass the range check are finite, so
  the Store itself holds rationals.
* `print`ed outcome messages are modelled by small result enums.
* File I/O is abstracted away: `save_data` produces the JSON tree that
  `json.dump` would write, and `parse_store` reads a JSON tree back as a
  Store (the text layer `json.dump`/`json.load` is the identity on this
  tree).
-/

namespace SGA

/-- Model of a Python float as produced by `float(rawScore)`:
either a finite value (modelled exactly as a rational) or one of the
non-finite values `nan`, `inf`, `-inf`. -/
inductive EFloat where
  | finite (q : ℚ)
  | nan
  | posInf
  | negInf
  deriving DecidableEq, Repr

/-- IEEE-754 `<=` on the float model: every comparison involving NaN is
false; `-inf` is below everything else and `+inf` above everything else. -/
def efle : EFloat → EFloat → Bool
  | .nan, _ => false
  | _, .nan => false
  | .negInf, _ => true
  | _, .negInf => false
  | _, .posInf => true
  | .posInf, _ => false
  | .finite a, .finite b => decide (a ≤ b)

/-- The range test `0 <= grade <= 100` of `add_grade` (a chained Python
comparison, i.e. `0 <= grade and grade <= 100`) on the float model. -/
def inRange01 (g : EFloat) : Bool :=
  efle (.finite 0) g && efle g (.finite 100)

/-- The rational carried by a finite float (junk value `0` on the
non-finite floats, which never pass `inRange01`). -/
def EFloat.toRat : EFloat → ℚ
  | .finite q => q
  | _ => 0

/-- Grades of one student: the inner dict `subject ↦ score`. -/
abbrev Grades := List (String × ℚ)

/-- The Store: the module-level dict `student_data : name ↦ grades`. -/
abbrev Store := List (String × Grades)

/-- Dict lookup `d[k]` / membership `k in d` (first matching key). -/
def lookupKey (k : String) : List (String × α) → Option α
  | [] => none
  | p :: t => if p.1 = k then some p.2 else lookupKey k t

/-- Dict assignment `d[k] = v`: replace the value at the first matching
key, or append a fresh entry at the end (Python insertion order). -/
def setKey (k : String) (v : α) : List (String × α) → List (String × α)
  | [] => [(k, v)]
  | p :: t => if p.1 = k then (k, v) :: t else p :: setKey k v t

/-- Dict deletion `del d[k]`: drop the first entry with the given key. -/
def delKey (k : String) : List (String × α) → List (String × α)
  | [] => []
  | p :: t => if p.1 = k then t else p :: delKey k t

/-- Grade of `name` in `subject`: `student_data[name][subject]` if both
levels are present. -/
def lookupGrade (st : Store) (name subject : String) : Option ℚ :=
  (lookupKey name st).bind (lookupKey subject)

/-- Outcome of `add_student` (which message it prints). -/
inductive AddStudentResult where
  | ok
  | duplicateStudent
  deriving DecidableEq, Repr

/-- `add_student(name)` (sga.py:32-38): refuse if the name exists,
otherwise `student_data[name] = {}`. -/
def add_student (st : Store) (name : String) : Store × AddStudentResult :=
  if (lookupKey name st).isSome then
    (st, .duplicateStudent)
  else
    (setKey name ([] : Grades) st, .ok)

/-- Outcome of `add_grade` (which message it prints). -/
inductive AddGradeResult where
  | ok
  | studentNotFound
  | gradeOutOfRange
  | invalidGradeFormat
  deriving DecidableEq, Repr

/-- `add_grade(name, subject, grade)` (sga.py:40-55).  The raw input is
given as the result of `float(grade)`: `none` when that call raises
`ValueError`, otherwise the parsed float.  If the student exists and
`0 <= grade <= 100` the score is stored via
`student_data[name][subject] = grade`.  `inRange01` only holds of finite
floats (see `inRange01_finite`), so storing `g.toRat` stores exactly the
parsed value. -/
def add_grade (st : Store) (name subject : String) (raw : Option EFloat) :
    Store × AddGradeResult :=
  match lookupKey name st with
  | none => (st, .studentNotFound)
  | some grades =>
    match raw with
    | none => (st, .invalidGradeFormat)
    | some g =>
      if inRange01 g then
        (setKey name (setKey subject g.toRat grades) st, .ok)
      else
        (st, .gradeOutOfRange)

/-- Round-half-to-even to an integer, the behaviour of Python 3's
built-in `round` on an exactly-representable value. -/
def rhe (q : ℚ) : ℤ :=
  if q - ⌊q⌋ < 1 / 2 then ⌊q⌋
  else if 1 / 2 < q - ⌊q⌋ then ⌊q⌋ + 1
  else if ⌊q⌋ % 2 = 0 then ⌊q⌋ else ⌊q⌋ + 1

/-- `round(x, 2)`: round half-to-even at the second decimal place. -/
def round2 (q : ℚ) : ℚ := (rhe (q * 100) : ℚ) / 100

/-- `calculate_average_grade(name)` (sga.py:57-64): `none` stands for the
string `"N/A"` (absent student or empty grade dict), otherwise
`round(sum(grades) / len(grades), 2)` over `student_data[name].values()`. -/
def calculate_average_grade (st : Store) (name : String) : Option ℚ :=
  match lookupKey name st with
  | none => none
  | some grades =>
    if grades = [] then none
    else some (round2 ((grades.map Prod.snd).sum / (grades.length : ℚ)))

/-- What `view_student_report(name)` (sga.py:66-82) prints: an error for
an unknown student; `"No grades recorded yet."` (and nothing more) for a
known student with an empty grade dict; otherwise the (subject, grade)
pairs in dict iteration order followed by the overall average. -/
inductive Report where
  | studentNotFound
  | noGrades
  | entriesWithAvg (entries : Grades) (avg : Option ℚ)
  deriving DecidableEq, Repr

/-- `view_student_report(name)` (sga.py:66-82). -/
def view_student_report (st : Store) (name : String) : Report :=
  match lookupKey name st with
  | none => .studentNotFound
  | some grades =>
    if grades = [] then .noGrades
    else .entriesWithAvg grades (calculate_average_grade st name)

/-- The accumulation loop of `calculate_class_subject_average`
(sga.py:89-92): fold over all students, adding the score and bumping the
count for each student whose grade dict contains `subject`. -/
def classTotals (st : Store) (subject : String) : ℚ × ℕ :=
  st.foldl
    (fun acc p =>
      match lookupKey subject p.2 with
      | some g => (acc.1 + g, acc.2 + 1)
      | none => acc)
    (0, 0)

/-- `calculate_class_subject_average(subject)` (sga.py:84-98): `none`
stands for `"N/A"` (no student has the subject), otherwise the rounded
mean of the accumulated total over the count. -/
def calculate_class_subject_average (st : Store) (subject : String) :
    Option ℚ :=
  let t := classTotals st subject
  if t.2 = 0 then none
  else some (round2 (t.1 / (t.2 : ℚ)))

/-- Outcome of `delete_student` (which message it prints). -/
inductive DeleteStudentResult where
  | ok
  | studentNotFound
  deriving DecidableEq, Repr

/-- `delete_student(name)` (sga.py:102-108). -/
def delete_student (st : Store) (name : String) : Store × DeleteStudentResult :=
  if (lookupKey name st).isSome then
    (delKey name st, .ok)
  else
    (st, .studentNotFound)

/-- Outcome of `delete_grade` (which message it prints). -/
inductive DeleteGradeResult where
  | ok
  | studentNotFound
  | subjectNotFound
  deriving DecidableEq, Repr

/-- `delete_grade(name, subject)` (sga.py:110-120): check the student,
then the subject, then `del student_data[name][subject]`. -/
def delete_grade (st : Store) (name subject : String) :
    Store × DeleteGradeResult :=
  match lookupKey name st with
  | none => (st, .studentNotFound)
  | some grades =>
    if (lookupKey subject grades).isSome then
      (setKey name (delKey subject grades) st, .ok)
    else
      (st, .subjectNotFound)

/-- `list students` (menu option 5, sga.py:183): iterate over the keys of
`student_data` in insertion order. -/
def listStudents (st : Store) : List String := st.map Prod.fst

/-- JSON trees, as far as this program's persisted state needs them:
`json.dump` writes numbers, strings, objects, arrays, booleans and null;
the saved Store only uses objects and numbers, the other constructors
exist so that `parse_store` genuinely discriminates. -/
inductive Json where
  | num (q : ℚ)
  | str (s : String)
  | obj (members : List (String × Json))
  | arr (elems : List Json)
  | bool (b : Bool)
  | null

/-- `save_data()` (sga.py:26-30): `json.dump(student_data, f, indent=4)`.
The JSON tree written for the Store (the file text layer is the identity
on this tree; `indent=4` only affects whitespace). -/
def save_data (st : Store) : Json :=
  .obj (st.map fun p => (p.1, .obj (p.2.map fun g => (g.1, .num g.2))))

/-- Read a JSON object's members back as one student's grades; `none` if
the tree is not a number-valued object. -/
def parseGradesList : List (String × Json) → Option Grades
  | [] => some []
  | (k, .num q) :: t => (parseGradesList t).map (fun r => (k, q) :: r)
  | _ => none

/-- Members of the top-level JSON object, one student each; `none` if a
member is not itself a number-valued object. -/
def parseStoreList : List (String × Json) → Option Store
  | [] => some []
  | (k, .obj g) :: t =>
    match parseGradesList g with
    | some gs => (parseStoreList t).map (fun r => (k, gs) :: r)
    | none => none
  | _ => none

/-- Read a JSON tree back as a Store (the shape `json.load` hands back
for a file that `save_data` wrote); `none` if the tree does not have the
nested-object shape. -/
def parse_store : Json → Option Store
  | .obj l => parseStoreList l
  | _ => none

/-- The data-model invariant of §3: every stored score lies in [0, 100]. -/
def storeInv (st : Store) : Prop :=
  ∀ p ∈ st, ∀ g ∈ p.2, 0 ≤ g.2 ∧ g.2 ≤ 100

/-! ## Dictionary lemmas -/

variable {α : Type _}

theorem lookupKey_setKey_self (k : String) (v : α) (l : List (String × α)) :
    lookupKey k (setKey k v l) = some v := by
  induction l with
  | nil => simp [setKey, lookupKey]
  | cons p t ih =>
    by_cases h : p.1 = k <;> simp [setKey, lookupKey, h, ih]

theorem lookupKey_setKey_ne {k' k : String} (h : k' ≠ k) (v : α)
    (l : List (String × α)) : lookupKey k' (setKey k v l) = lookupKey k' l := by
  induction l with
  | nil => simp [setKey, lookupKey, Ne.symm h]
  | cons p t ih =>
    by_cases hp : p.1 = k
    · subst hp
      simp [setKey, lookupKey, Ne.symm h]
    · simp only [setKey, if_neg hp, lookupKey]
      by_cases hp' : p.1 = k' <;> simp [hp', ih]

theorem length_setKey_of_isSome {k : String} {l : List (String × α)}
    (h : (lookupKey k l).isSome) (v : α) :
    (setKey k v l).length = l.length := by
  induction l with
  | nil => simp [lookupKey] at h
  | cons p t ih =>
    by_cases hp : p.1 = k
    · simp [setKey, hp]
    · simp only [lookupKey, if_neg hp] at h
      simp [setKey, hp, ih h]

theorem setKey_of_eq_none {k : String} {l : List (String × α)}
    (h : lookupKey k l = none) (v : α) : setKey k v l = l ++ [(k, v)] := by
  induction l with
  | nil => simp [setKey]
  | cons p t ih =>
    by_cases hp : p.1 = k
    · simp [lookupKey, hp] at h
    · simp only [lookupKey, if_neg hp] at h
      simp [setKey, hp, ih h]

theorem lookupKey_eq_none_iff (k : String) (l : List (String × α)) :
    lookupKey k l = none ↔ k ∉ l.map Prod.fst := by
  induction l with
  | nil => simp [lookupKey]
  | cons p t ih =>
    by_cases hp : p.1 = k
    · simp [lookupKey, hp]
    · have hk : ¬k = p.1 := fun hk => hp hk.symm
      simp only [lookupKey, if_neg hp, List.map_cons, List.mem_cons, ih]
      tauto

theorem mem_of_lookupKey_eq_some {k : String} {v : α} {l : List (String × α)}
    (h : lookupKey k l = some v) : (k, v) ∈ l := by
  induction l with
  | nil => simp [lookupKey] at h
  | cons p t ih =>
    by_cases hp : p.1 = k
    · simp only [lookupKey, if_pos hp, Option.some.injEq] at h
      obtain ⟨a, b⟩ := p
      cases hp
      cases h
      exact List.mem_cons_self _ _
    · simp only [lookupKey, if_neg hp] at h
      exact List.mem_cons_of_mem _ (ih h)

theorem mem_setKey {p : String × α} {k : String} {v : α} {l : List (String × α)}
    (h : p ∈ setKey k v l) : p = (k, v) ∨ p ∈ l := by
  induction l with
  | nil => simpa [setKey] using h
  | cons q t ih =>
    by_cases hq : q.1 = k
    · rw [setKey, if_pos hq] at h
      rcases List.mem_cons.mp h with h | h
      · exact Or.inl h
      · exact Or.inr (List.mem_cons_of_mem _ h)
    · rw [setKey, if_neg hq] at h
      rcases List.mem_cons.mp h with h | h
      · subst h
        exact Or.inr (List.mem_cons_self _ _)
      · rcases ih h with h | h
        · exact Or.inl h
        · exact Or.inr (List.mem_cons_of_mem _ h)

theorem mem_delKey {p : String × α} {k : String} {l : List (String × α)}
    (h : p ∈ delKey k l) : p ∈ l := by
  induction l with
  | nil => simp [delKey] at h
  | cons q t ih =>
    by_cases hq : q.1 = k
    · rw [delKey, if_pos hq] at h
      exact List.mem_cons_of_mem _ h
    · rw [delKey, if_neg hq] at h
      rcases List.mem_cons.mp h with h | h
      · subst h
        exact List.mem_cons_self _ _
      · exact List.mem_cons_of_mem _ (ih h)

theorem lookupKey_delKey_ne {k' k : String} (h : k' ≠ k)
    (l : List (String × α)) : lookupKey k' (delKey k l) = lookupKey k' l := by
  induction l with
  | nil => simp [delKey]
  | cons p t ih =>
    by_cases hp : p.1 = k
    · rw [delKey, if_pos hp, lookupKey, if_neg (by rw [hp]; exact fun hk => h hk.symm)]
    · rw [delKey, if_neg hp, lookupKey, lookupKey]
      by_cases hp' : p.1 = k' <;> simp [hp', ih]

theorem lookupKey_delKey_self {k : String} {l : List (String × α)}
    (hnd : (l.map Prod.fst).Nodup) : lookupKey k (delKey k l) = none := by
  induction l with
  | nil => simp [delKey, lookupKey]
  | cons p t ih =>
    rw [List.map_cons, List.nodup_cons] at hnd
    by_cases hp : p.1 = k
    · rw [delKey, if_pos hp, (lookupKey_eq_none_iff k t)]
      rw [← hp]
      exact hnd.1
    · rw [delKey, if_neg hp, lookupKey, if_neg hp]
      exact ih hnd.2

/-! ## Range check and rounding lemmas -/

theorem inRange01_iff (g : EFloat) :
    inRange01 g = true ↔ ∃ q : ℚ, g = .finite q ∧ 0 ≤ q ∧ q ≤ 100 := by
  cases g <;> simp [inRange01, efle]

theorem inRange01_eq_false_of_nonfinite {g : EFloat}
    (h : g = .nan ∨ g = .posInf ∨ g = .negInf) : inRange01 g = false := by
  rcases h with h | h | h <;> subst h <;> rfl

theorem abs_rhe_sub_le (r : ℚ) : |(rhe r : ℚ) - r| ≤ 1 / 2 := by
  have h1 : (⌊r⌋ : ℚ) ≤ r := Int.floor_le r
  have h2 : r < ⌊r⌋ + 1 := Int.lt_floor_add_one r
  rw [rhe]
  split_ifs with ha hb hc <;> rw [abs_le] <;> constructor <;> push_cast <;> linarith

theorem round2_hundredths (q : ℚ) : round2 q = (rhe (q * 100) : ℚ) / 100 := rfl

theorem abs_round2_sub_le (q : ℚ) : |round2 q - q| ≤ 1 / 200 := by
  have h := abs_rhe_sub_le (q * 100)
  have : round2 q - q = ((rhe (q * 100) : ℚ) - q * 100) / 100 := by
    rw [round2]
    ring
  rw [this, abs_div]
  rw [show |(100 : ℚ)| = 100 by norm_num]
  linarith

theorem rhe_add_half (n : ℤ) :
    rhe ((n : ℚ) + 1 / 2) = if n % 2 = 0 then n else n + 1 := by
  have hfl : ⌊(n : ℚ) + 1 / 2⌋ = n := by
    rw [add_comm, Int.floor_add_int]
    norm_num
  rw [rhe, hfl]
  norm_num

/-! ## The class-average accumulation loop -/

/-- The scores contributing to a subject's class average: one per student
whose grade dict contains the subject. -/
def subjectScores (st : Store) (subject : String) : List ℚ :=
  st.filterMap fun p => lookupKey subject p.2

theorem classTotals_foldl_aux (st : Store) (subject : String) :
    ∀ a : ℚ, ∀ n : ℕ,
      st.foldl
        (fun acc p =>
          match lookupKey subject p.2 with
          | some g => (acc.1 + g, acc.2 + 1)
          | none => acc)
        (a, n) =
      (a + (subjectScores st subject).sum, n + (subjectScores st subject).length) := by
  induction st with
  | nil => intro a n; simp [subjectScores]
  | cons p t ih =>
    intro a n
    rw [List.foldl_cons]
    cases hp : lookupKey subject p.2 with
    | none => simp only [hp, ih, subjectScores, List.filterMap_cons, hp]
    | some g =>
      simp only [hp, ih, subjectScores, List.filterMap_cons, hp, List.sum_cons,
        List.length_cons]
      simp only [Prod.mk.injEq]
      exact ⟨by ring, by omega⟩

theorem classTotals_eq (st : Store) (subject : String) :
    classTotals st subject =
      ((subjectScores st subject).sum, (subjectScores st subject).length) := by
  have h := classTotals_foldl_aux st subject 0 0
  simpa [classTotals] using h

/-! ## Serialization round-trip -/

theorem parseGradesList_map (g : Grades) :
    parseGradesList (g.map fun p => (p.1, Json.num p.2)) = some g := by
  induction g with
  | nil => rfl
  | cons p t ih => simp [parseGradesList, ih]

theorem parse_store_save_data (st : Store) : parse_store (save_data st) = some st := by
  rw [save_data, parse_store]
  induction st with
  | nil => rfl
  | cons p t ih =>
    simp only [List.map_cons, parseStoreList, parseGradesList_map, ih]
    rfl

/-! ## Claim theorems -/

/-- C1: for every Store, student present in it, subject, and raw score that
parses as a real number `s` with `0 ≤ s ≤ 100`, `add_grade` succeeds, replaces
the student's grade dict by `setKey subject s` of it (creating the entry if
absent, overwriting in place if present — so on re-add of an existing subject
the student's subject count does not grow), and querying that subject
afterwards returns `s`. -/
theorem C1_add_grade_upsert (st : Store) (name subject : String) (s : ℚ)
    (g : Grades) (hg : lookupKey name st = some g) (h0 : 0 ≤ s) (h1 : s ≤ 100) :
    (add_grade st name subject (some (.finite s))).2 = .ok ∧
    lookupKey name (add_grade st name subject (some (.finite s))).1 =
      some (setKey subject s g) ∧
    lookupGrade (add_grade st name subject (some (.finite s))).1 name subject =
      some s ∧
    ((lookupKey subject g).isSome → (setKey subject s g).length = g.length) ∧
    (lookupKey subject g = none → (setKey subject s g).length = g.length + 1) := by
  have hr : inRange01 (.finite s) = true := by
    simp [inRange01, efle, h0, h1]
  have hadd : add_grade st name subject (some (.finite s)) =
      (setKey name (setKey subject s g) st, .ok) := by
    simp [add_grade, hg, hr, EFloat.toRat]
  refine ⟨by rw [hadd], by rw [hadd]; exact lookupKey_setKey_self .., ?_, ?_, ?_⟩
  · rw [hadd, lookupGrade]
    simp only [lookupKey_setKey_self, Option.bind_some]
    exact lookupKey_setKey_self ..
  · intro hs
    exact length_setKey_of_isSome hs s
  · intro hs
    rw [setKey_of_eq_none hs s, List.length_append, List.length_cons,
      List.length_nil]

/-- C1 witness: adding score 95 in subject "M" for existing student "A"
(who already has an "M" grade) succeeds, the query returns 95, and the
subject count stays 1. -/
theorem C1_add_grade_upsert_witness :
    (add_grade [("A", [("M", 50)])] "A" "M" (some (.finite 95))).2 = .ok ∧
    lookupGrade (add_grade [("A", [("M", 50)])] "A" "M" (some (.finite 95))).1
      "A" "M" = some 95 ∧
    (setKey "M" (95 : ℚ) [("M", (50 : ℚ))]).length = [("M", (50 : ℚ))].length := by
  have h := C1_add_grade_upsert [("A", [("M", 50)])] "A" "M" 95 [("M", 50)]
    rfl (by norm_num) (by norm_num)
  exact ⟨h.1, h.2.2.1, h.2.2.2.1 rfl⟩

/-- C3: whenever `add_grade` fails, the whole Store is left unchanged, and
the three failure conditions map to their errors: absent student to
`studentNotFound`, an unparsable raw score to `invalidGradeFormat`, and a
parsed value outside [0, 100] to `gradeOutOfRange`. -/
theorem C3_add_grade_failure_frame (st : Store) (name subject : String)
    (raw : Option EFloat) :
    ((add_grade st name subject raw).2 ≠ .ok →
      (add_grade st name subject raw).1 = st) ∧
    (lookupKey name st = none →
      add_grade st name subject raw = (st, .studentNotFound)) ∧
    ((lookupKey name st).isSome → raw = none →
      add_grade st name subject raw = (st, .invalidGradeFormat)) ∧
    (∀ g, (lookupKey name st).isSome → raw = some g → inRange01 g = false →
      add_grade st name subject raw = (st, .gradeOutOfRange)) := by
  refine ⟨?_, ?_, ?_, ?_⟩
  · intro hne
    rw [add_grade] at hne ⊢
    cases hl : lookupKey name st with
    | none => simp [hl]
    | some g0 =>
      cases raw with
      | none => simp [hl]
      | some g =>
        by_cases hr : inRange01 g
        · simp [hl, hr] at hne
        · simp [hl, hr]
  · intro hl
    simp [add_grade, hl]
  · intro hl hraw
    obtain ⟨g0, hg0⟩ := Option.isSome_iff_exists.mp hl
    subst hraw
    simp [add_grade, hg0]
  · intro g hl hraw hr
    obtain ⟨g0, hg0⟩ := Option.isSome_iff_exists.mp hl
    subst hraw
    simp [add_grade, hg0, hr]

/-- C3 witness: the three failures at concrete inputs, each leaving the
concrete Store unchanged. -/
theorem C3_add_grade_failure_frame_witness :
    add_grade [("A", [("M", 50)])] "B" "M" (some (.finite 7)) =
      ([("A", [("M", 50)])], .studentNotFound) ∧
    add_grade [("A", [("M", 50)])] "A" "M" none =
      ([("A", [("M", 50)])], .invalidGradeFormat) ∧
    add_grade [("A", [("M", 50)])] "A" "M" (some (.finite 101)) =
      ([("A", [("M", 50)])], .gradeOutOfRange) := by
  refine ⟨(C3_add_grade_failure_frame [("A", [("M", 50)])] "B" "M"
      (some (.finite 7))).2.1 rfl,
    (C3_add_grade_failure_frame [("A", [("M", 50)])] "A" "M" none).2.2.1
      rfl rfl,
    (C3_add_grade_failure_frame [("A", [("M", 50)])] "A" "M"
      (some (.finite 101))).2.2.2 (.finite 101) rfl rfl ?_⟩
  simp [inRange01, efle]
  norm_num

/-- C7: `add_student` on a present name reports the duplicate and leaves the
Store unchanged; on an absent name it succeeds, the new student has an empty
grade dict, and the student list afterwards contains the name exactly once. -/
theorem C7_add_student (st : Store) (name : String) :
    ((lookupKey name st).isSome →
      add_student st name = (st, .duplicateStudent)) ∧
    (lookupKey name st = none →
      (add_student st name).2 = .ok ∧
      lookupKey name (add_student st name).1 = some [] ∧
      (listStudents (add_student st name).1).count name = 1) := by
  constructor
  · intro h
    simp [add_student, h]
  · intro h
    have hn : ¬(lookupKey name st).isSome = true := by
      simp [h]
    have hstep : add_student st name = (setKey name ([] : Grades) st, .ok) := by
      simp [add_student, hn]
    have happ : setKey name ([] : Grades) st = st ++ [(name, ([] : Grades))] :=
      setKey_of_eq_none h []
    refine ⟨by rw [hstep], by rw [hstep]; exact lookupKey_setKey_self .., ?_⟩
    rw [hstep]
    simp only [listStudents, happ, List.map_append, List.map_cons, List.map_nil]
    rw [List.count_append]
    have hzero : (st.map Prod.fst).count name = 0 :=
      List.count_eq_zero.mpr ((lookupKey_eq_none_iff name st).mp h)
    simp [hzero, List.count_cons]

/-- C7 witness: adding student "B" to a Store holding only "A" succeeds and
lists "B" exactly once, while re-adding "A" is rejected unchanged. -/
theorem C7_add_student_witness :
    add_student [("A", [])] "A" = ([("A", [])], .duplicateStudent) ∧
    (add_student [("A", [])] "B").2 = .ok ∧
    (listStudents (add_student [("A", [])] "B").1).count "B" = 1 := by
  refine ⟨(C7_add_student [("A", [])] "A").1 rfl, ?_, ?_⟩
  · exact ((C7_add_student [("A", [])] "B").2 rfl).1
  · exact ((C7_add_student [("A", [])] "B").2 rfl).2.2

/-- C10: a raw score that parses to NaN, `inf`, or `-inf` fails the chained
comparison `0 <= grade <= 100` (IEEE comparisons with NaN are false, and the
infinities lie outside the range), so for an existing student `add_grade`
reports the out-of-range error — not the invalid-format error — and leaves
the Store unchanged; hence no non-finite score is ever stored. -/
theorem C10_add_grade_nonfinite (st : Store) (name subject : String)
    (g : EFloat) (hnf : g = .nan ∨ g = .posInf ∨ g = .negInf)
    (hpres : (lookupKey name st).isSome) :
    inRange01 g = false ∧
    add_grade st name subject (some g) = (st, .gradeOutOfRange) := by
  have hr := inRange01_eq_false_of_nonfinite hnf
  obtain ⟨g0, hg0⟩ := Option.isSome_iff_exists.mp hpres
  exact ⟨hr, by simp [add_grade, hg0, hr]⟩

/-- C10 witness: NaN input for existing student "A" is rejected as
out-of-range with the Store unchanged. -/
theorem C10_add_grade_nonfinite_witness :
    inRange01 .nan = false ∧
    add_grade [("A", [])] "A" "M" (some .nan) = ([("A", [])], .gradeOutOfRange) :=
  C10_add_grade_nonfinite [("A", [])] "A" "M" .nan (Or.inl rfl) rfl

/-- C2: `calculate_average_grade` returns the N/A sentinel for an absent
student or one with zero grades, and otherwise the arithmetic mean of the
student's scores rounded to 2 decimal places (the result is a whole number
of hundredths within 1/200 of the true mean) under the single consistent
round-half-to-even tie rule; in particular a student with grades
{80, 90} gets average 85. -/
theorem C2_student_average (st : Store) (name : String) :
    (lookupKey name st = none → calculate_average_grade st name = none) ∧
    (lookupKey name st = some [] → calculate_average_grade st name = none) ∧
    (∀ g, lookupKey name st = some g → g ≠ [] →
      calculate_average_grade st name =
        some (round2 ((g.map Prod.snd).sum / (g.length : ℚ)))) ∧
    (∀ q : ℚ, ∃ n : ℤ, round2 q = (n : ℚ) / 100) ∧
    (∀ q : ℚ, |round2 q - q| ≤ 1 / 200) ∧
    (∀ n : ℤ, rhe ((n : ℚ) + 1 / 2) = if n % 2 = 0 then n else n + 1) ∧
    calculate_average_grade [("X", [("a", 80), ("b", 90)])] "X" = some 85 := by
  refine ⟨?_, ?_, ?_, fun q => ⟨rhe (q * 100), rfl⟩, abs_round2_sub_le,
    rhe_add_half, ?_⟩
  · intro h
    simp [calculate_average_grade, h]
  · intro h
    simp [calculate_average_grade, h]
  · intro g hg hne
    simp [calculate_average_grade, hg, hne]
  · simp only [calculate_average_grade, lookupKey]
    norm_num [round2, rhe]
    exact fun h => List.noConfusion h

/-- C2 witness: the N/A case for an absent student and the {80, 90} case,
both at concrete stores. -/
theorem C2_student_average_witness :
    calculate_average_grade [("X", [("a", 80), ("b", 90)])] "Y" = none ∧
    calculate_average_grade [("X", [("a", 80), ("b", 90)])] "X" =
      some (round2 (([(("a", 80) : String × ℚ), ("b", 90)].map Prod.snd).sum /
        (([(("a", 80) : String × ℚ), ("b", 90)].length : ℚ)))) := by
  refine ⟨(C2_student_average [("X", [("a", 80), ("b", 90)])] "Y").1 rfl, ?_⟩
  exact (C2_student_average [("X", [("a", 80), ("b", 90)])] "X").2.2.1
    [("a", 80), ("b", 90)] rfl (by simp)

/-- C5 counterexample: for existing student "A" with zero grades the code
prints only `"No grades recorded yet."` and returns before the average line,
so the report contains no average at all — not an average rendered "N/A" as
the claim states. -/
theorem C5_zero_grades_counterexample :
    view_student_report [("A", [])] "A" = .noGrades ∧
    ∀ e a, Report.noGrades ≠ Report.entriesWithAvg e a :=
  ⟨rfl, fun _ _ h => Report.noConfusion h⟩

/-- C5 (amended): `view_student_report` fails exactly when the student is
absent; for an existing student with zero grades it prints only the
no-grades notice and no average; for an existing student with grades it
lists the (subject, score) pairs in insertion order followed by the average
per `calculate_average_grade`, which in that case is always a numeric value
(never "N/A"). -/
theorem C5_report_amended (st : Store) (name : String) :
    (view_student_report st name = .studentNotFound ↔
      lookupKey name st = none) ∧
    (lookupKey name st = some [] → view_student_report st name = .noGrades) ∧
    (∀ g, lookupKey name st = some g → g ≠ [] →
      view_student_report st name =
        .entriesWithAvg g (calculate_average_grade st name) ∧
      calculate_average_grade st name =
        some (round2 ((g.map Prod.snd).sum / (g.length : ℚ)))) := by
  refine ⟨⟨?_, ?_⟩, ?_, ?_⟩
  · intro h
    rw [view_student_report] at h
    cases hl : lookupKey name st with
    | none => rfl
    | some g =>
      rw [hl] at h
      by_cases hne : g = [] <;> simp [hne] at h
  · intro h
    simp [view_student_report, h]
  · intro h
    simp [view_student_report, h]
  · intro g hg hne
    constructor
    · simp [view_student_report, hg, hne]
    · simp [calculate_average_grade, hg, hne]

/-- C5 witness: on a concrete Store, an absent student is rejected, an
empty-grades student gets the no-grades report, and a student with grades
gets entries plus numeric average. -/
theorem C5_report_amended_witness :
    (view_student_report [("A", []), ("B", [("M", 50)])] "C" =
      .studentNotFound) ∧
    view_student_report [("A", []), ("B", [("M", 50)])] "A" = .noGrades ∧
    view_student_report [("A", []), ("B", [("M", 50)])] "B" =
      .entriesWithAvg [("M", 50)]
        (calculate_average_grade [("A", []), ("B", [("M", 50)])] "B") := by
  refine ⟨(C5_report_amended [("A", []), ("B", [("M", 50)])] "C").1.mpr rfl,
    (C5_report_amended [("A", []), ("B", [("M", 50)])] "A").2.1 rfl,
    ((C5_report_amended [("A", []), ("B", [("M", 50)])] "B").2.2
      [("M", 50)] rfl (by simp)).1⟩

/-- C6: the class average of a subject is the N/A sentinel exactly when no
student has an entry for that subject, and otherwise the rounded mean of
the scores of exactly those students that do have an entry; in particular
over {A: {Math: 100}, B: {Math: 50}, C: {}} the "Math" average is 75. -/
theorem C6_class_subject_average (st : Store) (subject : String) :
    (subjectScores st subject = [] ↔
      ∀ p ∈ st, lookupKey subject p.2 = none) ∧
    (subjectScores st subject = [] →
      calculate_class_subject_average st subject = none) ∧
    (subjectScores st subject ≠ [] →
      calculate_class_subject_average st subject =
        some (round2 ((subjectScores st subject).sum /
          ((subjectScores st subject).length : ℚ)))) ∧
    calculate_class_subject_average
      [("A", [("Math", 100)]), ("B", [("Math", 50)]), ("C", [])] "Math" =
      some 75 := by
  refine ⟨List.filterMap_eq_nil_iff, ?_, ?_, ?_⟩
  · intro h
    simp [calculate_class_subject_average, classTotals_eq, h]
  · intro h
    have hlen : (subjectScores st subject).length ≠ 0 := by
      simpa [List.length_eq_zero] using h
    simp [calculate_class_subject_average, classTotals_eq, hlen]
  · simp only [calculate_class_subject_average, classTotals_eq, subjectScores,
      List.filterMap_cons, lookupKey]
    norm_num [round2, rhe]

/-- C6 witness: the N/A case for a subject nobody has, and the non-empty
case on a concrete two-score store. -/
theorem C6_class_subject_average_witness :
    calculate_class_subject_average
      [("A", [("Math", 100)]), ("B", [("Math", 50)]), ("C", [])] "Art" =
      none ∧
    calculate_class_subject_average
      [("A", [("Math", 100)]), ("B", [("Math", 50)]), ("C", [])] "Math" =
      some (round2
        ((subjectScores
            [("A", [("Math", 100)]), ("B", [("Math", 50)]), ("C", [])]
            "Math").sum /
          ((subjectScores
              [("A", [("Math", 100)]), ("B", [("Math", 50)]), ("C", [])]
              "Math").length : ℚ))) := by
  refine ⟨(C6_class_subject_average
      [("A", [("Math", 100)]), ("B", [("Math", 50)]), ("C", [])] "Art").2.1
      (by simp [subjectScores, lookupKey]), ?_⟩
  exact (C6_class_subject_average
      [("A", [("Math", 100)]), ("B", [("Math", 50)]), ("C", [])] "Math").2.2.1
    (by simp [subjectScores, lookupKey])

/-- C8: `delete_grade` fails with the student error when the student is
absent and the subject error when the student exists but lacks the subject,
both leaving the Store unchanged; when both exist it succeeds and removes
exactly that one entry — the deleted subject is gone (given the dict-key
uniqueness Python guarantees), every other subject of the student keeps its
score, and every other student is untouched. -/
theorem C8_delete_grade_frame (st : Store) (name subject : String) :
    (lookupKey name st = none →
      delete_grade st name subject = (st, .studentNotFound)) ∧
    (∀ g, lookupKey name st = some g → lookupKey subject g = none →
      delete_grade st name subject = (st, .subjectNotFound)) ∧
    (∀ g, lookupKey name st = some g → (lookupKey subject g).isSome →
      (delete_grade st name subject).2 = .ok ∧
      lookupKey name (delete_grade st name subject).1 =
        some (delKey subject g) ∧
      ((g.map Prod.fst).Nodup →
        lookupGrade (delete_grade st name subject).1 name subject = none) ∧
      (∀ s2, s2 ≠ subject →
        lookupKey s2 (delKey subject g) = lookupKey s2 g) ∧
      (∀ n2, n2 ≠ name →
        lookupKey n2 (delete_grade st name subject).1 = lookupKey n2 st)) := by
  refine ⟨?_, ?_, ?_⟩
  · intro h
    simp [delete_grade, h]
  · intro g hg hs
    simp [delete_grade, hg, hs]
  · intro g hg hs
    have hstep : delete_grade st name subject =
        (setKey name (delKey subject g) st, .ok) := by
      simp [delete_grade, hg, hs]
    refine ⟨by rw [hstep], by rw [hstep]; exact lookupKey_setKey_self .., ?_,
      fun s2 h2 => lookupKey_delKey_ne h2 g, fun n2 h2 => ?_⟩
    · intro hnd
      rw [hstep, lookupGrade]
      simp only [lookupKey_setKey_self, Option.bind_some]
      exact lookupKey_delKey_self hnd
    · rw [hstep]
      exact lookupKey_setKey_ne h2 _ st

/-- C8 witness: deleting ("A", "M") from a concrete two-student Store
removes only that entry: "A" keeps subject "P", student "B" is untouched,
and the two failure cases leave the Store unchanged. -/
theorem C8_delete_grade_frame_witness :
    delete_grade [("A", [("M", 50), ("P", 60)]), ("B", [("M", 70)])] "C" "M" =
      ([("A", [("M", 50), ("P", 60)]), ("B", [("M", 70)])],
        .studentNotFound) ∧
    delete_grade [("A", [("M", 50), ("P", 60)]), ("B", [("M", 70)])] "A" "Z" =
      ([("A", [("M", 50), ("P", 60)]), ("B", [("M", 70)])],
        .subjectNotFound) ∧
    lookupGrade
      (delete_grade [("A", [("M", 50), ("P", 60)]), ("B", [("M", 70)])]
        "A" "M").1 "A" "M" = none ∧
    lookupKey "P" (delKey "M" [(("M", 50) : String × ℚ), ("P", 60)]) =
      lookupKey "P" [(("M", 50) : String × ℚ), ("P", 60)] ∧
    lookupKey "B"
      (delete_grade [("A", [("M", 50), ("P", 60)]), ("B", [("M", 70)])]
        "A" "M").1 =
      lookupKey "B" [("A", [("M", 50), ("P", 60)]), ("B", [("M", 70)])] := by
  have h3 := (C8_delete_grade_frame
      [("A", [("M", 50), ("P", 60)]), ("B", [("M", 70)])] "A" "M").2.2
    [("M", 50), ("P", 60)] rfl rfl
  refine ⟨(C8_delete_grade_frame
      [("A", [("M", 50), ("P", 60)]), ("B", [("M", 70)])] "C" "M").1 rfl,
    (C8_delete_grade_frame
      [("A", [("M", 50), ("P", 60)]), ("B", [("M", 70)])] "A" "Z").2.1
      [("M", 50), ("P", 60)] rfl rfl,
    h3.2.2.1 (by simp), h3.2.2.2.1 "P" (by simp), h3.2.2.2.2 "B" (by simp)⟩

/-- C4: the range invariant — every stored score lies in [0, 100] — holds
in every reachable Store state: it holds of the empty startup Store, it is
preserved by `add_student`, `add_grade`, `delete_student` and
`delete_grade`, and a Store populated at startup by loading what `save_data`
persisted from an invariant-satisfying Store satisfies it again. -/
theorem C4_range_invariant :
    storeInv [] ∧
    (∀ st name, storeInv st → storeInv (add_student st name).1) ∧
    (∀ st name subject raw, storeInv st →
      storeInv (add_grade st name subject raw).1) ∧
    (∀ st name, storeInv st → storeInv (delete_student st name).1) ∧
    (∀ st name subject, storeInv st →
      storeInv (delete_grade st name subject).1) ∧
    (∀ st st', storeInv st → parse_store (save_data st) = some st' →
      storeInv st') := by
  refine ⟨?_, ?_, ?_, ?_, ?_, ?_⟩
  · intro p hp
    simp at hp
  · intro st name hinv
    rw [add_student]
    by_cases h : (lookupKey name st).isSome
    · simpa [h] using hinv
    · simp only [if_neg h, storeInv]
      intro p hp g hg
      rcases mem_setKey hp with rfl | hp'
      · simp at hg
      · exact hinv p hp' g hg
  · intro st name subject raw hinv
    cases hl : lookupKey name st with
    | none => simpa [add_grade, hl] using hinv
    | some g0 =>
      cases raw with
      | none => simpa [add_grade, hl] using hinv
      | some g =>
        by_cases hr : inRange01 g
        · rcases (inRange01_iff g).mp hr with ⟨q, rfl, hq0, hq1⟩
          simp only [add_grade, hl, hr, if_true, storeInv, EFloat.toRat]
          intro p hp gr hgr
          rcases mem_setKey hp with rfl | hp'
          · rcases mem_setKey hgr with rfl | hgr'
            · exact ⟨hq0, hq1⟩
            · exact hinv (name, g0) (mem_of_lookupKey_eq_some hl) gr hgr'
          · exact hinv p hp' gr hgr
        · simpa [add_grade, hl, hr] using hinv
  · intro st name hinv
    rw [delete_student]
    by_cases h : (lookupKey name st).isSome
    · simp only [if_pos h, storeInv]
      intro p hp g hg
      exact hinv p (mem_delKey hp) g hg
    · simpa [h] using hinv
  · intro st name subject hinv
    cases hl : lookupKey name st with
    | none => simpa [delete_grade, hl] using hinv
    | some g0 =>
      by_cases hs : (lookupKey subject g0).isSome
      · simp only [delete_grade, hl, hs, if_true, storeInv]
        intro p hp gr hgr
        rcases mem_setKey hp with rfl | hp'
        · exact hinv (name, g0) (mem_of_lookupKey_eq_some hl) gr (mem_delKey hgr)
        · exact hinv p hp' gr hgr
      · simpa [delete_grade, hl, hs] using hinv
  · intro st st' hinv hparse
    rw [parse_store_save_data] at hparse
    cases hparse
    exact hinv

/-- C4 witness: starting from the singleton Store for "A" (which satisfies
the invariant) the Store after a successful `add_grade` still satisfies it,
and so does the Store loaded back from a save of it. -/
theorem C4_range_invariant_witness :
    storeInv ((add_grade [("A", [])] "A" "M" (some (.finite 95))).1) ∧
    storeInv [("A", [("M", (95 : ℚ))])] := by
  refine ⟨C4_range_invariant.2.2.1 [("A", [])] "A" "M" (some (.finite 95))
      ?_, ?_⟩
  · intro p hp g hg
    simp at hp
    subst hp
    simp at hg
  · exact C4_range_invariant.2.2.2.2.2 [("A", [("M", 95)])]
      [("A", [("M", 95)])]
      (by
        intro p hp g hg
        simp at hp
        subst hp
        simp at hg
        subst hg
        norm_num)
      (parse_store_save_data _)

/-- C9: saving a Store and loading the serialized representation back
yields the very same Store — the same students, subjects and scores. -/
theorem C9_save_load_roundtrip (st : Store) :
    parse_store (save_data st) = some st :=
  parse_store_save_data st

end SGA
